import Mathlib

/-!
Verification development for the polyline consolidation core of the
`vectorize` repository (`cleanup.py` and `path_index.py`).

The Python code computes with floating-point numbers; the embedding uses
exact rationals (`ℚ`).  Square roots and inverse cosines never reach the
output of the program: every use in the source is inside a comparison, so
each comparison is embedded in an algebraically equivalent square-free
form, documented at the definition:

* `dist > t`   becomes `t < 0 ∨ t^2 < dist²` (distances are nonnegative);
* `angle(u, v) < tol`, with `angle = degrees(arccos(clip(|u·v|, -1, 1)))`
  and `u`, `v` unit vectors obtained by normalizing direction vectors
  `d₁`, `d₂`, becomes `|cos| > cos tol`, carried in the cleared-denominator
  form `(d₁·d₂)² > cosTol² ‖d₁‖² ‖d₂‖²`.  All angle tolerances therefore
  enter the embedding through the parameter `cosTol = cos(angle_tol°)`.

Stateful Python code (the index, the merge loop mutating `segments` and
`active`) is embedded by explicit state passing; the unbounded `while`
loops are embedded with an explicit fuel parameter and `Option` results
(`none` = fuel exhausted), and fuel sufficiency is proved.
-/

namespace Vectorize

/-- A 2-D point, the `(x, y)` tuples of the Python code. -/
abbrev Pt : Type := ℚ × ℚ

/-- Componentwise subtraction `a - b` of 2-D points/vectors. -/
def psub (a b : Pt) : Pt := (a.1 - b.1, a.2 - b.2)

/-- Dot product, `np.dot` on 2-D vectors. -/
def pdot (a b : Pt) : ℚ := a.1 * b.1 + a.2 * b.2

/-- Squared Euclidean norm of a 2-D vector (`np.linalg.norm(v)**2`). -/
def normSq (a : Pt) : ℚ := pdot a a

/-- Squared Euclidean distance between two points. -/
def sqDist (a b : Pt) : ℚ := normSq (psub a b)

/-- The 2-D cross product `a.x * b.y - a.y * b.x`. -/
def cross2 (a b : Pt) : ℚ := a.1 * b.2 - a.2 * b.1

/-- Embeds `np.allclose(a, b, rtol, atol)` on two 2-D points: componentwise
`|a_i - b_i| ≤ atol + rtol * |b_i|`. -/
def allclosePt (a b : Pt) (rtol atol : ℚ) : Bool :=
  decide (|a.1 - b.1| ≤ atol + rtol * |b.1| ∧ |a.2 - b.2| ≤ atol + rtol * |b.2|)

/-- Comparison `‖v‖ > t` in square-free form: distances/norms are nonnegative, so for
`t ≥ 0` the comparison is equivalent to `t² < ‖v‖²`, and for `t < 0` it is
always true. -/
def sqrtGT (sq t : ℚ) : Bool := decide (t < 0 ∨ t ^ 2 < sq)

/-- First point of a path, `path[0]` (paths reaching the core are nonempty). -/
def pt0 (path : List Pt) : Pt := path.headD (0, 0)

/-- Second point of a path, `path[1]`. -/
def pt1 (path : List Pt) : Pt := path.getD 1 (0, 0)

/-- Last point of a path, `path[-1]`. -/
def ptLast (path : List Pt) : Pt := path.getLastD (0, 0)

/-- Second-to-last point of a path, `path[-2]`. -/
def ptPenult (path : List Pt) : Pt := path.getD (path.length - 2) (0, 0)

/-! ## Spatial index (`path_index.py`) -/

/-- Record `IndexEntry` of `path_index.py`: one endpoint record. -/
structure IndexEntry where
  x : ℚ
  y : ℚ
  path_index : ℕ
  is_start : Bool
deriving DecidableEq, Repr

/-- Record `EndpointMatch` of `path_index.py`.  The source stores the Euclidean
distance `np.sqrt(d2)`; the embedding stores the squared distance `d2`,
which orders matches identically (square root is monotone). -/
structure EndpointMatch where
  path_index : ℕ
  is_start : Bool
  point : Pt
  dist2 : ℚ
deriving DecidableEq, Repr

/-- Insert an element into a list sorted by `key`, after all elements with
an equal or smaller key — the behaviour of `SortedList.add` from
`sortedcontainers` (bisect-right insertion point). -/
def insertSortedBy {α : Type} (key : α → ℚ) (e : α) : List α → List α
  | [] => [e]
  | a :: as => if key a ≤ key e then a :: insertSortedBy key e as else e :: a :: as

/-- Stable sort by a rational key: fold the list into an insertion-sorted
accumulator, each element going after already-placed equals.  Embeds
Python's stable `list.sort(key=...)`. -/
def stableSortBy {α : Type} (key : α → ℚ) (l : List α) : List α :=
  l.foldl (fun acc e => insertSortedBy key e acc) []

/-- State of `PathIndex`: the two axis-sorted entry sequences and the excluded
identifier set (the Python `set` is embedded as a duplicate-free list used
only through membership). -/
structure PathIndex where
  entries_x : List IndexEntry
  entries_y : List IndexEntry
  excluded : List ℕ
deriving DecidableEq, Repr

/-- Embeds `set.add`: insert an identifier if not already present. -/
def addExcl (i : ℕ) (ex : List ℕ) : List ℕ := if i ∈ ex then ex else i :: ex

/-- Embeds `PathIndex._is_closed_path`: at least 3 points and
`np.allclose(path[0], path[-1], rtol=1e-6)` (the `atol` keeps its NumPy
default `1e-8`). -/
def is_closed_path (path : List Pt) : Bool :=
  decide (3 ≤ path.length) && allclosePt (pt0 path) (ptLast path) (1 / 1000000) (1 / 100000000)

/-- Add one entry to both axis-sorted sequences (`SortedList.add` on each). -/
def addEntry (s : PathIndex) (e : IndexEntry) : PathIndex :=
  { s with
    entries_x := insertSortedBy (fun a => a.x) e s.entries_x
    entries_y := insertSortedBy (fun a => a.y) e s.entries_y }

/-- The start-endpoint record of a path. -/
def startEntry (i : ℕ) (path : List Pt) : IndexEntry :=
  ⟨(pt0 path).1, (pt0 path).2, i, true⟩

/-- The end-endpoint record of a path. -/
def endEntry (i : ℕ) (path : List Pt) : IndexEntry :=
  ⟨(ptLast path).1, (ptLast path).2, i, false⟩

/-- Embeds `PathIndex._build_index`: closed paths are excluded and contribute no
entries; paths with at least two points contribute their start record then
their end record. -/
def build_index (paths : List (List Pt)) : PathIndex :=
  paths.enum.foldl
    (fun s ip =>
      if is_closed_path ip.2 then { s with excluded := addExcl ip.1 s.excluded }
      else if 2 ≤ ip.2.length then addEntry (addEntry s (startEntry ip.1 ip.2)) (endEntry ip.1 ip.2)
      else s)
    ⟨[], [], []⟩

/-- Embeds `bisect_left` on a key-sorted list: the number of elements with key
strictly below `v`. -/
def bisectLeft (l : List IndexEntry) (key : IndexEntry → ℚ) (v : ℚ) : ℕ :=
  (l.takeWhile (fun e => decide (key e < v))).length

/-- Embeds `bisect_right` on a key-sorted list: the number of elements with key
at most `v`. -/
def bisectRight (l : List IndexEntry) (key : IndexEntry → ℚ) (v : ℚ) : ℕ :=
  (l.takeWhile (fun e => decide (key e ≤ v))).length

/-- Embeds `PathIndex.find_endpoints_in_radius`: slice the candidate window on
whichever axis is narrower, filter out excluded identifiers and entries
beyond the radius (`d2 ≤ r*r`, exactly as the source), and sort the
matches by ascending distance. -/
def find_endpoints_in_radius (s : PathIndex) (point : Pt) (radius : ℚ) :
    List EndpointMatch :=
  let x0 := point.1
  let y0 := point.2
  let r := radius
  let lx := bisectLeft s.entries_x (fun e => e.x) (x0 - r)
  let rx := bisectRight s.entries_x (fun e => e.x) (x0 + r)
  let ly := bisectLeft s.entries_y (fun e => e.y) (y0 - r)
  let ry := bisectRight s.entries_y (fun e => e.y) (y0 + r)
  let candidates :=
    if (rx : ℤ) - (lx : ℤ) < (ry : ℤ) - (ly : ℤ)
    then (s.entries_x.take rx).drop lx
    else (s.entries_y.take ry).drop ly
  let results := candidates.filterMap (fun e =>
    if e.path_index ∈ s.excluded then none
    else
      let dx := e.x - x0
      let dy := e.y - y0
      let d2 := dx * dx + dy * dy
      if d2 ≤ r * r then some ⟨e.path_index, e.is_start, (e.x, e.y), d2⟩ else none)
  stableSortBy (fun m => m.dist2) results

/-- Embeds `PathIndex.insert_path`: discard the identifier from the excluded set;
a closed path is re-excluded and contributes no entries, otherwise its two
endpoint records are added. -/
def insert_path (s : PathIndex) (path : List Pt) (path_index : ℕ) : PathIndex :=
  let s1 : PathIndex := { s with excluded := s.excluded.erase path_index }
  if is_closed_path path then { s1 with excluded := addExcl path_index s1.excluded }
  else addEntry (addEntry s1 (startEntry path_index path)) (endEntry path_index path)

/-- Embeds `PathIndex.remove_path`: lazy removal, the identifier is only added to
the excluded set and its entries stay in the sequences. -/
def remove_path (s : PathIndex) (path_index : ℕ) : PathIndex :=
  { s with excluded := addExcl path_index s.excluded }

/-! ## Geometry kernel (`cleanup.py`) -/

/-- Comparison `|cos θ| > c` for the angle `θ` between direction vectors `d1`, `d2`,
in cleared-denominator form: for `c ≥ 0` it is `(d1·d2)² > c²‖d1‖²‖d2‖²`,
and for `c < 0` it always holds (`|cos θ| ≥ 0`). -/
def absCosGT (d1 d2 : Pt) (c : ℚ) : Bool :=
  decide (c < 0 ∨ c ^ 2 * (normSq d1 * normSq d2) < pdot d1 d2 ^ 2)

/-- Comparison `|cos θ| < c` for the angle `θ` between direction vectors `d1`, `d2`:
for `c > 0` it is `(d1·d2)² < c²‖d1‖²‖d2‖²`, and for `c ≤ 0` it never
holds. -/
def absCosLT (d1 d2 : Pt) (c : ℚ) : Bool :=
  decide (0 < c ∧ pdot d1 d2 ^ 2 < c ^ 2 * (normSq d1 * normSq d2))

/-- Embeds `are_segments_collinear` of `cleanup.py`.  With
`angle = degrees(arccos(clip(abs(dot), -1, 1)))` for the normalized
directions, the source returns `angle < angle_tol or abs(180 - angle) <
angle_tol`.  Since `angle = arccos |cos θ| ∈ [0°, 90°]` and `arccos` is
strictly decreasing, `angle < tol ↔ |cos θ| > cos tol` and
`|180 - angle| < tol ↔ angle > 180 - tol ↔ |cos θ| < cos (180° - tol) =
-cos tol`; the embedding carries `cosTol = cos(angle_tol°)`.  The first
and third arguments are the adjacent path points, unused by the source
body exactly as here. -/
def are_segments_collinear (seg1_pts : List Pt) (seg1_dir : Pt)
    (seg2_pts : List Pt) (seg2_dir : Pt) (cosTol : ℚ) : Bool :=
  absCosGT seg1_dir seg2_dir cosTol || absCosLT seg1_dir seg2_dir (-cosTol)

/-- Embeds `are_segments_offset` of `cleanup.py`: `perp_distance(p2, p1, dir1) >
offset_tol`, where `point_to_line_distance` computes `‖v - (v·û)û‖` for
`v = p2 - p1` and `û` the unit vector of `dir1`.  In exact arithmetic
`perp² = ‖v‖² - (v·d)²/‖d‖²`, so for `offset_tol ≥ 0` the comparison is
`‖v‖²‖d‖² - (v·d)² > offset_tol²‖d‖²`, and for `offset_tol < 0` it always
holds (a distance is nonnegative). -/
def are_segments_offset (seg1_point : Pt) (seg1_dir : Pt) (seg2_point : Pt)
    (offset_tol : ℚ) : Bool :=
  let v := psub seg2_point seg1_point
  decide (offset_tol < 0 ∨
    offset_tol ^ 2 * normSq seg1_dir < normSq v * normSq seg1_dir - pdot v seg1_dir ^ 2)

/-- Embeds `merge_paths` of `cleanup.py`: reverse either path as requested, then
concatenate, dropping the head of the second part when it is
`np.allclose` (default tolerances `rtol=1e-5`, `atol=1e-8`) to the last
point of the first part. -/
def merge_paths (path1 path2 : List Pt) (reverse1 reverse2 : Bool) : List Pt :=
  let p1 := if reverse1 then path1.reverse else path1
  let p2 := if reverse2 then path2.reverse else path2
  match p2 with
  | b :: bs =>
    if allclosePt (ptLast p1) b (1 / 100000) (1 / 100000000) then p1 ++ bs else p1 ++ p2
  | [] => p1 ++ p2

/-- Embeds `should_close_path` of `cleanup.py`.  The source rejects paths shorter
than 3 points, paths already closed (`np.allclose`, default tolerances),
paths whose endpoints are farther apart than `merge_dist_tol`, and paths
with a degenerate (`norm < 1e-6`) segment at either end; otherwise it
computes `angle = degrees(arccos(clip(abs(dot(start_dir, -end_dir)), -1,
1)))` and closes iff `angle < angle_tol`.  Because of the absolute value,
`|dot(ŝ, -ê)| = |dot(ŝ, ê)|`, so the test is `absCosGT` of the two raw
segment vectors against `cosTol = cos(angle_tol°)`. -/
def should_close_path (path : List Pt) (merge_dist_tol : ℚ) (cosTol : ℚ) : Bool :=
  if path.length < 3 then false
  else if allclosePt (pt0 path) (ptLast path) (1 / 100000) (1 / 100000000) then false
  else if sqrtGT (sqDist (ptLast path) (pt0 path)) merge_dist_tol then false
  else
    let start_segment := psub (pt1 path) (pt0 path)
    let end_segment := psub (ptLast path) (ptPenult path)
    if normSq start_segment < (1 / 1000000) ^ 2 ∨ normSq end_segment < (1 / 1000000) ^ 2 then
      false
    else absCosGT start_segment end_segment cosTol

/-! ## Merge engine (`cleanup.py`) -/

/-- The mutable state threaded through `merge_collinear`: the `segments`
slot array, the `active` identifier list and the spatial index. -/
structure MergeState where
  segments : List (List Pt)
  active : List ℕ
  pindex : PathIndex
deriving DecidableEq, Repr

/-- The direction vector and endpoint used by `try_merge_at_endpoint` for
one side of a candidate merge: at the start, `path[1] - path[0]` and
`path[0]`; at the end, `path[-1] - path[-2]` and `path[-1]`. -/
def dirAndPoint (path : List Pt) (at_start : Bool) : Pt × Pt :=
  if at_start then (psub (pt1 path) (pt0 path), pt0 path)
  else (psub (ptLast path) (ptPenult path), ptLast path)

/-- The two path points adjacent to the chosen end (`path[0:2]` or
`path[-2:]`), passed to `are_segments_collinear` as in the source. -/
def endPts (path : List Pt) (at_start : Bool) : List Pt :=
  if at_start then path.take 2 else path.drop (path.length - 2)

/-- The candidate loop of `try_merge_at_endpoint`: iterate the matches in
order; skip a match that is the path itself, not active, or shorter than
2 points; skip degenerate directions (`norm ≤ 1e-8`, i.e. squared norm
`≤ 1e-16`), non-collinear candidates, and offset candidates
(`offset_tol = merge_dist_tol * 0.5`); otherwise commit the merge:
remove both identifiers from the index, splice, overwrite slot `idx`,
re-insert the merged path under `idx`, and drop `j` from `active`. -/
def try_merge_go (st : MergeState) (path : List Pt) (idx : ℕ) (at_start : Bool)
    (merge_dist_tol cosTol : ℚ) :
    List EndpointMatch → Option (List Pt × ℕ × MergeState)
  | [] => none
  | m :: ms =>
    let j := m.path_index
    if j = idx ∨ j ∉ st.active ∨ (st.segments.getD j []).length < 2 then
      try_merge_go st path idx at_start merge_dist_tol cosTol ms
    else
      let seg := st.segments.getD j []
      let dir1 := (dirAndPoint path at_start).1
      let path_point := (dirAndPoint path at_start).2
      let dir2 := (dirAndPoint seg m.is_start).1
      let seg_point := (dirAndPoint seg m.is_start).2
      if normSq dir1 ≤ (1 / 100000000) ^ 2 ∨ normSq dir2 ≤ (1 / 100000000) ^ 2 then
        try_merge_go st path idx at_start merge_dist_tol cosTol ms
      else if ¬ are_segments_collinear (endPts path at_start) dir1
          (endPts seg m.is_start) dir2 cosTol then
        try_merge_go st path idx at_start merge_dist_tol cosTol ms
      else if are_segments_offset path_point dir1 seg_point (merge_dist_tol * (1 / 2)) then
        try_merge_go st path idx at_start merge_dist_tol cosTol ms
      else
        let pidx1 := remove_path (remove_path st.pindex idx) j
        let merged :=
          if at_start then merge_paths seg path (!m.is_start) false
          else merge_paths path seg false (!m.is_start)
        some (merged, j,
          ⟨st.segments.set idx merged, st.active.erase j, insert_path pidx1 merged idx⟩)

/-- Embeds `try_merge_at_endpoint` of `cleanup.py`: query the index around the
chosen endpoint of `path` with radius `merge_dist_tol` and run the
candidate loop; `none` is the `(None, None)` failure return. -/
def try_merge_at_endpoint (st : MergeState) (path : List Pt) (idx : ℕ)
    (at_start : Bool) (merge_dist_tol cosTol : ℚ) :
    Option (List Pt × ℕ × MergeState) :=
  let endpoint := if at_start then pt0 path else ptLast path
  try_merge_go st path idx at_start merge_dist_tol cosTol
    (find_endpoints_in_radius st.pindex endpoint merge_dist_tol)

/-- One inner pass of `merge_collinear` (`while i < len(active)`), with an
explicit fuel parameter (`none` = fuel exhausted; fuel `active.length + 1`
is proved sufficient below).  `n` counts the merges committed so far in
this pass; the source's boolean `merged` flag equals `n ≠ 0`.  Each
iteration re-reads `active[i]` and `segments[idx]`; a committed merge
retries the same position (`continue`), trying the end first and then the
start, and a failed position advances `i`. -/
def scanGo (d c : ℚ) : ℕ → MergeState → ℕ → ℕ → Option (MergeState × ℕ)
  | 0, _, _, _ => none
  | fuel + 1, st, i, n =>
    if i < st.active.length then
      let idx := st.active.getD i 0
      let path := st.segments.getD idx []
      match try_merge_at_endpoint st path idx false d c with
      | some r => scanGo d c fuel r.2.2 i (n + 1)
      | none =>
        match try_merge_at_endpoint st path idx true d c with
        | some r => scanGo d c fuel r.2.2 i (n + 1)
        | none => scanGo d c fuel st (i + 1) n
    else some (st, n)

/-- The outer `while active:` loop of `merge_collinear`, with fuel (fuel
`active.length + 1` is proved sufficient below).  A pass that commits no
merge breaks the loop; otherwise the loop repeats.  The second component
accumulates the total number of committed merges. -/
def loopGo (d c : ℚ) : ℕ → MergeState → Option (MergeState × ℕ)
  | 0, _ => none
  | fuel + 1, st =>
    if st.active.isEmpty then some (st, 0)
    else
      match scanGo d c (st.active.length + 1) st 0 0 with
      | none => none
      | some (st', n) =>
        if n = 0 then some (st', 0)
        else (loopGo d c fuel st').map (fun r => (r.1, r.2 + n))

/-- The closure pass of `merge_collinear`: iterate a snapshot of `active`;
each path that `should_close_path` accepts is closed by appending a copy
of its first point, written back into its slot, appended to the output,
and retired from the index; its identifier is collected for removal from
`active`.  Returns (closed outputs, state, identifiers to remove). -/
def close_pass (d c : ℚ) : List ℕ → MergeState → List (List Pt) × MergeState × List ℕ
  | [], st => ([], st, [])
  | idx :: rest, st =>
    let path := st.segments.getD idx []
    if should_close_path path d c then
      let closed := path ++ [pt0 path]
      let st' : MergeState :=
        ⟨st.segments.set idx closed, st.active, remove_path st.pindex idx⟩
      let r := close_pass d c rest st'
      (closed :: r.1, r.2.1, idx :: r.2.2)
    else close_pass d c rest st

/-- The initial `active` list of `merge_collinear`:
`[i for i in range(n) if len(segments[i]) >= 2]`. -/
def activeInit (segments : List (List Pt)) : List ℕ :=
  (List.range segments.length).filter (fun i => 2 ≤ (segments.getD i []).length)

/-- Embeds `merge_collinear` of `cleanup.py`, returning both the output list and
the final state (the state records what the caller's mutated `segments`
list holds after the call).  `none` would mean fuel exhaustion; fuel
sufficiency is proved below. -/
def mergeCollinearRun (segments : List (List Pt)) (d c : ℚ) :
    Option (List (List Pt) × MergeState) :=
  if segments.isEmpty then some ([], ⟨segments, [], ⟨[], [], []⟩⟩)
  else
    let st0 : MergeState := ⟨segments, activeInit segments, build_index segments⟩
    match loopGo d c (st0.active.length + 1) st0 with
    | none => none
    | some r =>
      let cp := close_pass d c r.1.active r.1
      let activeF := cp.2.2.foldl (fun a j => a.erase j) r.1.active
      let st2 : MergeState := ⟨cp.2.1.segments, activeF, cp.2.1.pindex⟩
      some (cp.1 ++ activeF.map (fun i => st2.segments.getD i []), st2)

/-- Embeds `merge_collinear`: the returned `merged_paths` list. -/
def merge_collinear (segments : List (List Pt)) (merge_dist_tol cosTol : ℚ) :
    List (List Pt) :=
  ((mergeCollinearRun segments merge_dist_tol cosTol).map (fun r => r.1)).getD []

/-- The endpoint record a query returns for an in-range entry: identifier,
start flag, coordinates and (squared) distance. -/
def matchOf (e : IndexEntry) (q : Pt) : EndpointMatch :=
  ⟨e.path_index, e.is_start, (e.x, e.y),
    (e.x - q.1) * (e.x - q.1) + (e.y - q.2) * (e.y - q.2)⟩

/-- A `MergeState` as `merge_collinear` initially builds it. -/
def initState (segments : List (List Pt)) : MergeState :=
  ⟨segments, activeInit segments, build_index segments⟩

/-! ## Concrete inputs used by the claim analyses -/

/-- Two collinear dashes that `merge_collinear` merges end-to-start. -/
def dashPair : List (List Pt) := [[(0, 0), (10, 10)], [(10, 10), (20, 20)]]

/-- A closed triangle (first point exactly equal to last). -/
def triClosed : List Pt := [(0, 0), (10, 0), (5, 5), (0, 0)]

/-- An open segment collinear with and close to the end tangent of
`triClosed`. -/
def triTail : List Pt := [(-1, -1), (-11, -11)]

/-- A pair whose only possible merge is at the start of the first path,
with the matched path also matched at its start. -/
def startStartPair : List (List Pt) := [[(10, 10), (0, 0)], [(10, 10), (20, 20)]]

/-- An open path whose start tangent equals its end tangent (so its start
tangent and the reverse of its end tangent point exactly away from each
other) and whose endpoints are half a unit apart. -/
def awayPath : List Pt := [(0, 0), (1, 0), (-1, 1 / 2), (0, 1 / 2)]

/-- An almost-closed rectangle that the closure pass closes, next to a
horizontal dash aligned with the seam that the merge loop leaves alone. -/
def nearRect : List (List Pt) := [[(0, 10), (0, 0), (1, 0), (1, 10)], [(-1, 10), (-5, 10)]]

/-! ## Helper lemmas -/

theorem merge_paths_length (p1 p2 : List Pt) (r1 r2 : Bool) :
    p1.length + p2.length ≤ (merge_paths p1 p2 r1 r2).length + 1 := by
  unfold merge_paths
  have h1 : (if r1 = true then p1.reverse else p1).length = p1.length := by
    rcases r1 <;> simp
  rcases h2 : (if r2 = true then p2.reverse else p2) with _ | ⟨b, bs⟩
  · have h2len : p2.length = 0 := by rcases r2 <;> simp_all
    simp only [List.append_nil]
    omega
  · have hlen : p2.length = bs.length + 1 := by
      have := congrArg List.length h2
      rcases r2 <;> simp_all
    split <;> (dsimp only; split) <;>
      simp only [List.length_append, List.length_cons, List.length_reverse] <;> omega

theorem try_merge_go_some {st : MergeState} {path : List Pt} {idx : ℕ}
    {as : Bool} {d c : ℚ} {m : List Pt} {j : ℕ} {st' : MergeState} :
    ∀ {ms : List EndpointMatch},
    try_merge_go st path idx as d c ms = some (m, j, st') →
    j ∈ st.active ∧ j ≠ idx ∧
      st'.active = st.active.erase j ∧
      st'.segments = st.segments.set idx m ∧
      2 ≤ (st.segments.getD j []).length ∧
      path.length + (st.segments.getD j []).length ≤ m.length + 1
  | [], h => by simp [try_merge_go] at h
  | mm :: ms, h => by
    rw [try_merge_go] at h
    split at h
    · exact try_merge_go_some h
    · rename_i hguard
      push_neg at hguard
      obtain ⟨hne, hmem, hlen⟩ := hguard
      dsimp only at h
      split at h
      · exact try_merge_go_some h
      · split at h
        · exact try_merge_go_some h
        · split at h
          · exact try_merge_go_some h
          · simp only [Option.some.injEq, Prod.mk.injEq] at h
            obtain ⟨hm, hj, hst⟩ := h
            subst hm hj
            refine ⟨hmem, hne, ?_, ?_, by omega, ?_⟩
            · rw [← hst]
            · rw [← hst]
            · split
              · have := merge_paths_length (st.segments.getD mm.path_index []) path
                  (!mm.is_start) false
                omega
              · have := merge_paths_length path (st.segments.getD mm.path_index [])
                  false (!mm.is_start)
                omega

theorem try_merge_at_endpoint_some {st : MergeState} {path : List Pt} {idx : ℕ}
    {as : Bool} {d c : ℚ} {m : List Pt} {j : ℕ} {st' : MergeState}
    (h : try_merge_at_endpoint st path idx as d c = some (m, j, st')) :
    j ∈ st.active ∧ j ≠ idx ∧
      st'.active = st.active.erase j ∧
      st'.segments = st.segments.set idx m ∧
      2 ≤ (st.segments.getD j []).length ∧
      path.length + (st.segments.getD j []).length ≤ m.length + 1 :=
  try_merge_go_some h

/-- A committed merge shrinks `active` by exactly one and keeps every other
member, in particular the surviving identifier `idx`. -/
theorem try_merge_at_endpoint_active {st : MergeState} {path : List Pt} {idx : ℕ}
    {as : Bool} {d c : ℚ} {m : List Pt} {j : ℕ} {st' : MergeState}
    (h : try_merge_at_endpoint st path idx as d c = some (m, j, st')) :
    st'.active.length + 1 = st.active.length ∧ (idx ∈ st.active → idx ∈ st'.active) := by
  obtain ⟨hmem, hne, hact, -, -, -⟩ := try_merge_at_endpoint_some h
  constructor
  · rw [hact, List.length_erase_of_mem hmem]
    have := List.length_pos.mpr (List.ne_nil_of_mem hmem)
    omega
  · intro hidx
    rw [hact]
    exact (List.mem_erase_of_ne (fun hEq => hne hEq.symm)).mpr hidx

theorem scanGo_some {d c : ℚ} :
    ∀ {fuel : ℕ} {st : MergeState} {i n : ℕ} {st' : MergeState} {n' : ℕ},
    scanGo d c fuel st i n = some (st', n') →
    n ≤ n' ∧ st'.active.length + n' = st.active.length + n ∧
      (st.active ≠ [] → st'.active ≠ []) ∧ (n' = n → st' = st)
  | 0, st, i, n, st', n', h => by simp [scanGo] at h
  | fuel + 1, st, i, n, st', n', h => by
    rw [scanGo] at h
    dsimp only at h
    split at h
    · rename_i hi
      have hidx : st.active.getD i 0 ∈ st.active := by
        rw [List.getD_eq_getElem?_getD, List.getElem?_eq_getElem hi]
        exact List.getElem_mem hi
      split at h
      · rename_i r htm
        obtain ⟨m, j, st2⟩ := r
        dsimp only at h htm
        obtain ⟨hlen, hmem⟩ := try_merge_at_endpoint_active htm
        obtain ⟨h1, h2, h3, h4⟩ := scanGo_some h
        refine ⟨by omega, by omega, fun _ => h3 (List.ne_nil_of_mem (hmem hidx)), ?_⟩
        intro hEq
        omega
      · split at h
        · rename_i r htm
          obtain ⟨m, j, st2⟩ := r
          dsimp only at h htm
          obtain ⟨hlen, hmem⟩ := try_merge_at_endpoint_active htm
          obtain ⟨h1, h2, h3, h4⟩ := scanGo_some h
          refine ⟨by omega, by omega, fun _ => h3 (List.ne_nil_of_mem (hmem hidx)), ?_⟩
          intro hEq
          omega
        · exact scanGo_some h
    · simp only [Option.some.injEq, Prod.mk.injEq] at h
      obtain ⟨hst, hn⟩ := h
      subst hst hn
      exact ⟨le_rfl, rfl, fun hne => hne, fun _ => rfl⟩

theorem scanGo_sufficient {d c : ℚ} :
    ∀ (fuel : ℕ) (st : MergeState) (i n : ℕ), st.active.length - i < fuel →
    ∃ r, scanGo d c fuel st i n = some r
  | 0, st, i, n, h => by omega
  | fuel + 1, st, i, n, h => by
    rw [scanGo]
    by_cases hi : i < st.active.length
    · rw [if_pos hi]
      rcases htm : try_merge_at_endpoint st (st.segments.getD (st.active.getD i 0) [])
          (st.active.getD i 0) false d c with _ | r
      · rcases htm' : try_merge_at_endpoint st (st.segments.getD (st.active.getD i 0) [])
            (st.active.getD i 0) true d c with _ | r'
        · simp only [htm, htm']
          exact scanGo_sufficient fuel st (i + 1) n (by omega)
        · simp only [htm, htm']
          obtain ⟨m, j, st2⟩ := r'
          obtain ⟨hlen, -⟩ := try_merge_at_endpoint_active htm'
          exact scanGo_sufficient fuel st2 i (n + 1) (by omega)
      · simp only [htm]
        obtain ⟨m, j, st2⟩ := r
        obtain ⟨hlen, -⟩ := try_merge_at_endpoint_active htm
        exact scanGo_sufficient fuel st2 i (n + 1) (by omega)
    · rw [if_neg hi]
      exact ⟨(st, n), rfl⟩

theorem loopGo_spec {d c : ℚ} :
    ∀ (fuel : ℕ) (st : MergeState), st.active.length < fuel →
    ∃ st' n, loopGo d c fuel st = some (st', n) ∧
      n + st'.active.length = st.active.length ∧
      (st.active ≠ [] → st'.active ≠ [])
  | 0, st, h => by omega
  | fuel + 1, st, h => by
    rw [loopGo]
    by_cases hemp : st.active.isEmpty
    · rw [if_pos hemp]
      exact ⟨st, 0, rfl, by omega, fun hne => hne⟩
    · rw [if_neg hemp]
      obtain ⟨⟨st1, n1⟩, hscan⟩ := scanGo_sufficient (d := d) (c := c)
        (st.active.length + 1) st 0 0 (by omega)
      rw [hscan]
      dsimp only
      obtain ⟨-, hcount, hnon, hzero⟩ := scanGo_some hscan
      by_cases hz : n1 = 0
      · rw [if_pos hz]
        exact ⟨st1, 0, rfl, by omega, fun hne => hnon hne⟩
      · rw [if_neg hz]
        have hne : st.active ≠ [] := fun hEq => hemp (by simp [hEq])
        obtain ⟨st', n, hloop, hcount', hnon'⟩ := loopGo_spec fuel st1
          (by have := List.length_pos.mpr hne; omega)
        rw [hloop]
        exact ⟨st', n + n1, rfl, by omega, fun _ => hnon' (hnon hne)⟩

/-! ## Claim theorems -/

/-- Claim C5: a candidate that has passed the collinearity check is
skipped (and the next candidate considered) iff the matched endpoint is
farther than `offset_tol = d_tol / 2` perpendicular to P's line — and the
offset predicate holds iff that perpendicular distance strictly exceeds
`offset_tol`.  First conjunct: behaviour of the candidate loop after the
collinearity gate, with the offset test evaluated at `d * (1/2)` exactly
as the source's `offset_tol = merge_dist_tol * 0.5`.  Second conjunct:
`are_segments_offset p1 dir p2 t` holds iff `t < 0` or
`t² ‖dir‖² < cross(p2 - p1, dir)²`; since the perpendicular distance from
`p2` to the line through `p1` with direction `dir` is
`|cross(p2 - p1, dir)| / ‖dir‖ ≥ 0`, this says exactly `perp > t`
(squaring is monotone on nonnegatives, and for `t < 0` the strict
inequality always holds). -/
theorem C5_offset_gate :
    (∀ (st : MergeState) (path : List Pt) (idx : ℕ) (as : Bool) (d c : ℚ)
        (m : EndpointMatch) (ms : List EndpointMatch),
      ¬(m.path_index = idx ∨ m.path_index ∉ st.active ∨
          (st.segments.getD m.path_index []).length < 2) →
      ¬(normSq (dirAndPoint path as).1 ≤ (1 / 100000000) ^ 2 ∨
          normSq (dirAndPoint (st.segments.getD m.path_index []) m.is_start).1
            ≤ (1 / 100000000) ^ 2) →
      are_segments_collinear (endPts path as) (dirAndPoint path as).1
        (endPts (st.segments.getD m.path_index []) m.is_start)
        (dirAndPoint (st.segments.getD m.path_index []) m.is_start).1 c = true →
      ((are_segments_offset (dirAndPoint path as).2 (dirAndPoint path as).1
          (dirAndPoint (st.segments.getD m.path_index []) m.is_start).2
          (d * (1 / 2)) = true →
        try_merge_go st path idx as d c (m :: ms) = try_merge_go st path idx as d c ms)
      ∧ (are_segments_offset (dirAndPoint path as).2 (dirAndPoint path as).1
          (dirAndPoint (st.segments.getD m.path_index []) m.is_start).2
          (d * (1 / 2)) = false →
        try_merge_go st path idx as d c (m :: ms) =
          some (if as then
              merge_paths (st.segments.getD m.path_index []) path (!m.is_start) false
            else merge_paths path (st.segments.getD m.path_index []) false (!m.is_start),
            m.path_index,
            ⟨st.segments.set idx (if as then
                merge_paths (st.segments.getD m.path_index []) path (!m.is_start) false
              else merge_paths path (st.segments.getD m.path_index []) false (!m.is_start)),
             st.active.erase m.path_index,
             insert_path (remove_path (remove_path st.pindex idx) m.path_index)
               (if as then
                  merge_paths (st.segments.getD m.path_index []) path (!m.is_start) false
                else merge_paths path (st.segments.getD m.path_index []) false (!m.is_start))
               idx⟩))))
    ∧ (∀ (p1 dir p2 : Pt) (t : ℚ),
        are_segments_offset p1 dir p2 t = true ↔
          (t < 0 ∨ t ^ 2 * normSq dir < cross2 (psub p2 p1) dir ^ 2)) := by
  constructor
  · intro st path idx as d c m ms hguard hdeg hcol
    constructor
    · intro hoff
      rw [try_merge_go, if_neg hguard]
      dsimp only
      rw [if_neg hdeg, if_neg (by rw [hcol]; simp), if_pos hoff]
    · intro hoff
      rw [try_merge_go, if_neg hguard]
      dsimp only
      rw [if_neg hdeg, if_neg (by rw [hcol]; simp), if_neg (by rw [hoff]; simp)]
  · intro p1 dir p2 t
    unfold are_segments_offset
    rw [decide_eq_true_eq]
    have hid : normSq (psub p2 p1) * normSq dir - pdot (psub p2 p1) dir ^ 2
        = cross2 (psub p2 p1) dir ^ 2 := by
      unfold normSq pdot cross2 psub
      ring
    rw [hid]

/-- Witness for Claim C5: in the two-dash scenario the candidate at the
end of `[(0,0),(10,10)]` passes collinearity, is not offset, and the loop
commits exactly the described merge. -/
theorem C5_offset_gate_witness :
    try_merge_go (initState dashPair) [(0, 0), (10, 10)] 0 false (1 / 10) (99 / 100)
        [⟨1, true, (10, 10), 0⟩] =
      some (merge_paths [(0, 0), (10, 10)] ((initState dashPair).segments.getD 1 [])
          false (!true),
        1,
        ⟨(initState dashPair).segments.set 0
            (merge_paths [(0, 0), (10, 10)] ((initState dashPair).segments.getD 1 [])
              false (!true)),
         (initState dashPair).active.erase 1,
         insert_path (remove_path (remove_path (initState dashPair).pindex 0) 1)
           (merge_paths [(0, 0), (10, 10)] ((initState dashPair).segments.getD 1 [])
             false (!true)) 0⟩) :=
  (C5_offset_gate.1 (initState dashPair) [(0, 0), (10, 10)] 0 false (1 / 10) (99 / 100)
      ⟨1, true, (10, 10), 0⟩ []
      (by with_unfolding_all decide) (by with_unfolding_all decide)
      (by with_unfolding_all decide)).2
    (by with_unfolding_all decide)

theorem insertSortedBy_perm {α : Type} (key : α → ℚ) (e : α) :
    ∀ l : List α, List.Perm (insertSortedBy key e l) (e :: l)
  | [] => List.Perm.refl _
  | a :: as => by
    rw [insertSortedBy]
    split
    · exact ((insertSortedBy_perm key e as).cons a).trans (List.Perm.swap e a as)
    · exact List.Perm.refl _

theorem insertSortedBy_sorted {α : Type} (key : α → ℚ) (e : α) :
    ∀ {l : List α}, l.Sorted (fun a b => key a ≤ key b) →
    (insertSortedBy key e l).Sorted (fun a b => key a ≤ key b)
  | [], _ => List.sorted_singleton e
  | a :: as, h => by
    rw [List.sorted_cons] at h
    obtain ⟨ha, hs⟩ := h
    rw [insertSortedBy]
    split
    · rename_i hae
      rw [List.sorted_cons]
      refine ⟨fun b hb => ?_, insertSortedBy_sorted key e hs⟩
      rcases List.mem_cons.mp ((insertSortedBy_perm key e as).mem_iff.mp hb) with hb | hb
      · rw [hb]; exact hae
      · exact ha b hb
    · rename_i hae
      push_neg at hae
      rw [List.sorted_cons, List.sorted_cons]
      refine ⟨fun b hb => ?_, ha, hs⟩
      rcases List.mem_cons.mp hb with hb | hb
      · rw [hb]; exact le_of_lt hae
      · exact le_trans (le_of_lt hae) (ha b hb)

theorem stableSortBy_aux_perm {α : Type} (key : α → ℚ) :
    ∀ (l acc : List α),
      List.Perm (l.foldl (fun acc e => insertSortedBy key e acc) acc) (acc ++ l)
  | [], acc => by simp
  | e :: ls, acc => by
    rw [List.foldl_cons]
    refine ((stableSortBy_aux_perm key ls _).trans ?_)
    refine ((insertSortedBy_perm key e acc).append_right ls).trans ?_
    exact List.perm_middle.symm

theorem stableSortBy_perm {α : Type} (key : α → ℚ) (l : List α) :
    List.Perm (stableSortBy key l) l :=
  stableSortBy_aux_perm key l []

theorem stableSortBy_aux_sorted {α : Type} (key : α → ℚ) :
    ∀ (l acc : List α), acc.Sorted (fun a b => key a ≤ key b) →
    (l.foldl (fun acc e => insertSortedBy key e acc) acc).Sorted (fun a b => key a ≤ key b)
  | [], acc, h => h
  | e :: ls, acc, h => by
    rw [List.foldl_cons]
    exact stableSortBy_aux_sorted key ls _ (insertSortedBy_sorted key e h)

theorem stableSortBy_sorted {α : Type} (key : α → ℚ) (l : List α) :
    (stableSortBy key l).Sorted (fun a b => key a ≤ key b) :=
  stableSortBy_aux_sorted key l [] (List.sorted_nil)

theorem take_takeWhile_length {α : Type} (p : α → Bool) (l : List α) :
    l.take (l.takeWhile p).length = l.takeWhile p :=
  (List.prefix_iff_eq_take.mp (List.takeWhile_prefix p)).symm

theorem sorted_takeWhile_le (key : IndexEntry → ℚ) (hi : ℚ) :
    ∀ {l : List IndexEntry}, l.Sorted (fun a b => key a ≤ key b) →
    l.takeWhile (fun e => decide (key e ≤ hi)) = l.filter (fun e => decide (key e ≤ hi))
  | [], _ => rfl
  | a :: as, h => by
    rw [List.sorted_cons] at h
    obtain ⟨ha, hs⟩ := h
    by_cases hahi : key a ≤ hi
    · rw [List.takeWhile_cons, List.filter_cons, if_pos (decide_eq_true hahi),
        if_pos (decide_eq_true hahi), sorted_takeWhile_le key hi hs]
    · rw [List.takeWhile_cons, List.filter_cons, if_neg (by simpa using hahi),
        if_neg (by simpa using hahi)]
      symm
      rw [List.filter_eq_nil_iff]
      intro b hb
      simp only [decide_eq_true_eq]
      intro hbhi
      exact hahi (le_trans (ha b hb) hbhi)

/-- On a key-sorted list the bisect slice `l[left:right]` is exactly the
set of entries with key in `[lo, hi]`: no in-range entry is missed. -/
theorem sorted_slice (key : IndexEntry → ℚ) (lo hi : ℚ) (hlohi : lo ≤ hi) :
    ∀ {l : List IndexEntry}, l.Sorted (fun a b => key a ≤ key b) →
    (l.take (bisectRight l key hi)).drop (bisectLeft l key lo)
      = l.filter (fun e => decide (lo ≤ key e) && decide (key e ≤ hi))
  | [], _ => rfl
  | a :: as, h => by
    rw [List.sorted_cons] at h
    obtain ⟨ha, hs⟩ := h
    by_cases h1 : key a < lo
    · have hahi : key a ≤ hi := le_trans (le_of_lt h1) hlohi
      rw [bisectLeft, bisectRight, List.takeWhile_cons, List.takeWhile_cons,
        if_pos (decide_eq_true h1), if_pos (decide_eq_true hahi),
        List.length_cons, List.length_cons, List.take_succ_cons,
        List.drop_succ_cons, List.filter_cons,
        if_neg (by simp only [Bool.and_eq_true, decide_eq_true_eq, not_and]
                   exact fun hlo _ => absurd hlo (not_le.mpr h1))]
      exact sorted_slice key lo hi hlohi hs
    · push_neg at h1
      by_cases h3 : key a ≤ hi
      · rw [bisectLeft, bisectRight, List.takeWhile_cons, List.takeWhile_cons,
          if_neg (by simpa using not_lt.mpr h1), if_pos (decide_eq_true h3),
          List.length_nil, List.length_cons, List.take_succ_cons, List.drop_zero,
          List.filter_cons,
          if_pos (by simp only [Bool.and_eq_true, decide_eq_true_eq]
                     exact ⟨h1, h3⟩)]
        congr 1
        rw [take_takeWhile_length, sorted_takeWhile_le key hi hs]
        apply (List.filter_congr ?_).symm
        intro b hb
        rw [decide_eq_true (le_trans h1 (ha b hb)), Bool.true_and]
      · rw [bisectLeft, bisectRight, List.takeWhile_cons, List.takeWhile_cons,
          if_neg (by simpa using not_lt.mpr h1), if_neg (by simpa using h3),
          List.length_nil, List.take_zero, List.drop_nil]
        symm
        rw [List.filter_eq_nil_iff]
        intro b hb
        simp only [Bool.and_eq_true, decide_eq_true_eq, not_and]
        rcases List.mem_cons.mp hb with hb | hb
        · intro _
          rw [hb]
          exact h3
        · intro _
          exact fun hbhi => h3 (le_trans (ha b hb) hbhi)

theorem window_bound {a r : ℚ} (hr : 0 ≤ r) (h : a * a ≤ r * r) : -r ≤ a ∧ a ≤ r :=
  ⟨by nlinarith, by nlinarith⟩

theorem find_filter_some_iff (s : PathIndex) (q : Pt) (r : ℚ) (e : IndexEntry)
    (m : EndpointMatch) :
    ((if e.path_index ∈ s.excluded then none
      else if (e.x - q.1) * (e.x - q.1) + (e.y - q.2) * (e.y - q.2) ≤ r * r
        then some (matchOf e q) else none) = some m)
    ↔ (e.path_index ∉ s.excluded ∧
        (e.x - q.1) * (e.x - q.1) + (e.y - q.2) * (e.y - q.2) ≤ r * r ∧
        m = matchOf e q) := by
  by_cases hex : e.path_index ∈ s.excluded
  · rw [if_pos hex]
    simp [hex]
  · rw [if_neg hex]
    by_cases hd2 : (e.x - q.1) * (e.x - q.1) + (e.y - q.2) * (e.y - q.2) ≤ r * r
    · rw [if_pos hd2]
      simp [hex, hd2, eq_comm]
    · rw [if_neg hd2]
      simp [hex, hd2]

/-- The radius query returns exactly the non-excluded entries within the
(squared) radius, whichever axis window the source picks: every in-range
entry lies in both one-axis windows, so none is missed. -/
theorem mem_find_endpoints_iff (s : PathIndex) (q : Pt) (r : ℚ)
    (hx : s.entries_x.Sorted (fun a b => a.x ≤ b.x))
    (hy : s.entries_y.Sorted (fun a b => a.y ≤ b.y))
    (hperm : List.Perm s.entries_x s.entries_y)
    (hr : 0 ≤ r) (m : EndpointMatch) :
    m ∈ find_endpoints_in_radius s q r ↔
      ∃ e, e ∈ s.entries_x ∧ e.path_index ∉ s.excluded ∧
        (e.x - q.1) * (e.x - q.1) + (e.y - q.2) * (e.y - q.2) ≤ r * r ∧
        m = matchOf e q := by
  unfold find_endpoints_in_radius
  dsimp only
  refine Iff.trans (stableSortBy_perm _ _).mem_iff ?_
  rw [List.mem_filterMap]
  have hwindow : ∀ e : IndexEntry,
      (e.x - q.1) * (e.x - q.1) + (e.y - q.2) * (e.y - q.2) ≤ r * r →
      (q.1 - r ≤ e.x ∧ e.x ≤ q.1 + r) ∧ (q.2 - r ≤ e.y ∧ e.y ≤ q.2 + r) := by
    intro e hd2
    have hdx : (e.x - q.1) * (e.x - q.1) ≤ r * r := by
      nlinarith [mul_self_nonneg (e.y - q.2)]
    have hdy : (e.y - q.2) * (e.y - q.2) ≤ r * r := by
      nlinarith [mul_self_nonneg (e.x - q.1)]
    obtain ⟨hx1, hx2⟩ := window_bound hr hdx
    obtain ⟨hy1, hy2⟩ := window_bound hr hdy
    exact ⟨⟨by linarith, by linarith⟩, ⟨by linarith, by linarith⟩⟩
  split
  · rw [sorted_slice (fun e => e.x) (q.1 - r) (q.1 + r) (by linarith) hx]
    constructor
    · rintro ⟨e, he, hf⟩
      exact ⟨e, (List.mem_filter.mp he).1, (find_filter_some_iff s q r e m).mp hf⟩
    · rintro ⟨e, he, hex, hd2, hm⟩
      refine ⟨e, List.mem_filter.mpr ⟨he, ?_⟩,
        (find_filter_some_iff s q r e m).mpr ⟨hex, hd2, hm⟩⟩
      obtain ⟨⟨hl, hrr⟩, -⟩ := hwindow e hd2
      simp only [Bool.and_eq_true, decide_eq_true_eq]
      exact ⟨hl, hrr⟩
  · rw [sorted_slice (fun e => e.y) (q.2 - r) (q.2 + r) (by linarith) hy]
    constructor
    · rintro ⟨e, he, hf⟩
      exact ⟨e, hperm.mem_iff.mpr (List.mem_filter.mp he).1,
        (find_filter_some_iff s q r e m).mp hf⟩
    · rintro ⟨e, he, hex, hd2, hm⟩
      refine ⟨e, List.mem_filter.mpr ⟨hperm.mem_iff.mp he, ?_⟩,
        (find_filter_some_iff s q r e m).mpr ⟨hex, hd2, hm⟩⟩
      obtain ⟨-, hl, hrr⟩ := hwindow e hd2
      simp only [Bool.and_eq_true, decide_eq_true_eq]
      exact ⟨hl, hrr⟩

/-- If the first full pass commits no merge, the outer loop stops at once
with the pass's state. -/
theorem loopGo_of_scan_zero {d c : ℚ} (fuel : ℕ) {st st' : MergeState}
    (hscan : scanGo d c (st.active.length + 1) st 0 0 = some (st', 0)) :
    loopGo d c (fuel + 1) st = some (st', 0) := by
  rw [loopGo]
  by_cases hemp : st.active.isEmpty
  · rw [if_pos hemp]
    have hlen : st.active.length = 0 := by
      rwa [List.isEmpty_iff_length_eq_zero] at hemp
    rw [scanGo, if_neg (by omega)] at hscan
    simp only [Option.some.injEq, Prod.mk.injEq] at hscan
    rw [hscan.1]
  · rw [if_neg hemp, hscan]
    dsimp only
    rw [if_pos rfl]

/-- The closure pass leaves the state untouched and emits nothing when no
path in the snapshot qualifies for closing. -/
theorem close_pass_none {d c : ℚ} :
    ∀ {l : List ℕ} {st : MergeState},
    (∀ i ∈ l, should_close_path (st.segments.getD i []) d c = false) →
    close_pass d c l st = ([], st, [])
  | [], st, _ => rfl
  | i :: l, st, h => by
    rw [close_pass, if_neg (by rw [h i (List.mem_cons_self i l)]; simp)]
    exact close_pass_none (fun j hj => h j (List.mem_cons_of_mem i hj))

theorem filter_range_map_getD {α : Type} (p : α → Bool) (d : α) :
    ∀ (l : List α),
    ((List.range l.length).filter (fun i => p (l.getD i d))).map (fun i => l.getD i d)
      = l.filter p
  | [] => rfl
  | a :: l => by
    rw [List.length_cons, List.range_succ_eq_map]
    rw [List.filter_cons, List.filter_map]
    have hcomp : ((fun i => p ((a :: l).getD i d)) ∘ Nat.succ) = fun i => p (l.getD i d) := by
      funext i
      simp [List.getD_cons_succ]
    rw [hcomp]
    by_cases hpa : p a
    · rw [if_pos (by simpa using hpa)]
      rw [List.map_cons, List.map_map]
      have hcomp2 : ((fun i => (a :: l).getD i d) ∘ Nat.succ) = fun i => l.getD i d := by
        funext i
        simp [List.getD_cons_succ]
      rw [hcomp2, filter_range_map_getD p d l]
      simp [List.filter_cons, hpa]
    · rw [if_neg (by simpa using hpa)]
      rw [List.map_map]
      have hcomp2 : ((fun i => (a :: l).getD i d) ∘ Nat.succ) = fun i => l.getD i d := by
        funext i
        simp [List.getD_cons_succ]
      rw [hcomp2, filter_range_map_getD p d l]
      simp [List.filter_cons, hpa]

/-- The initial `active` identifiers name exactly the input polylines of
length at least 2, in order. -/
theorem activeInit_map_getD (segments : List (List Pt)) :
    (activeInit segments).map (fun i => segments.getD i [])
      = segments.filter (fun s => decide (2 ≤ s.length)) := by
  unfold activeInit
  exact filter_range_map_getD (fun s => decide (2 ≤ s.length)) [] segments

/-- Claim C8: `merge_collinear` terminates on every finite input.
First conjunct: every committed merge retires exactly one identifier
(`active` shrinks by exactly one) while the surviving identifier `idx`
stays active.  Second conjunct: for every nonempty input the outer loop
completes within its fuel, and the total number `n` of committed merges
satisfies `n + |final active| = |initial active|` and `n + 1 ≤ N` for `N`
input polylines, i.e. at most `N - 1` merges occur.  Third conjunct: the
loop exits right after the first full pass that commits no merge. -/
theorem C8_merge_terminates :
    (∀ (st : MergeState) (path : List Pt) (idx : ℕ) (as : Bool) (d c : ℚ)
        (m : List Pt) (j : ℕ) (st' : MergeState),
      try_merge_at_endpoint st path idx as d c = some (m, j, st') →
      st'.active.length + 1 = st.active.length ∧ (idx ∈ st.active → idx ∈ st'.active))
    ∧ (∀ (segments : List (List Pt)) (d c : ℚ), segments ≠ [] →
      ∃ st n, loopGo d c ((activeInit segments).length + 1) (initState segments)
          = some (st, n) ∧
        n + st.active.length = (activeInit segments).length ∧
        n + 1 ≤ segments.length)
    ∧ (∀ (d c : ℚ) (fuel : ℕ) (st st' : MergeState),
      scanGo d c (st.active.length + 1) st 0 0 = some (st', 0) →
      loopGo d c (fuel + 1) st = some (st', 0)) := by
  refine ⟨fun st path idx as d c m j st' h => try_merge_at_endpoint_active h, ?_, ?_⟩
  · intro segments d c hne
    obtain ⟨st, n, hloop, hcount, hnon⟩ := loopGo_spec (d := d) (c := c)
      ((activeInit segments).length + 1) (initState segments) (by simp [initState])
    have hco : n + st.active.length = (activeInit segments).length := hcount
    have hno : activeInit segments ≠ [] → st.active ≠ [] := hnon
    refine ⟨st, n, hloop, hco, ?_⟩
    have hle : (activeInit segments).length ≤ segments.length := by
      calc (activeInit segments).length
          ≤ (List.range segments.length).length := List.length_filter_le _ _
        _ = segments.length := List.length_range _
    by_cases hact : activeInit segments = []
    · have : (activeInit segments).length = 0 := by rw [hact]; rfl
      have hpos : 0 < segments.length := List.length_pos.mpr hne
      omega
    · have : st.active ≠ [] := hno hact
      have hpos : 0 < st.active.length := List.length_pos.mpr this
      omega
  · intro d c fuel st st' hscan
    exact loopGo_of_scan_zero fuel hscan

/-- Witness for Claim C8: on the two-dash input the loop completes with
one committed merge, within the `N - 1` bound. -/
theorem C8_merge_terminates_witness :
    ∃ st n, loopGo (1 / 10) (99 / 100) ((activeInit dashPair).length + 1)
        (initState dashPair) = some (st, n) ∧
      n + st.active.length = (activeInit dashPair).length ∧
      n + 1 ≤ dashPair.length :=
  C8_merge_terminates.2.1 dashPair (1 / 10) (99 / 100) (by with_unfolding_all decide)

/-- Claim C10: `merge_collinear` mutates the caller's `segments` list in
place.  In the state-passing embedding the caller's list after the call is
the state's `segments` field: every committed merge overwrites slot `idx`
with the spliced polyline (`segments[idx] = merged_path`), which is
strictly longer than and hence different from the polyline previously in
that slot; every closure overwrites the slot with the closed polyline
(`segments[idx] = closed_path`), one point longer than the original. -/
theorem C10_slots_overwritten :
    (∀ (st : MergeState) (path : List Pt) (idx : ℕ) (as : Bool) (d c : ℚ)
        (m : List Pt) (j : ℕ) (st' : MergeState),
      try_merge_at_endpoint st path idx as d c = some (m, j, st') →
      st'.segments = st.segments.set idx m ∧ path.length < m.length ∧
        (idx < st.segments.length → st.segments.getD idx [] = path →
          st'.segments.getD idx [] = m ∧ m ≠ path))
    ∧ (∀ (d c : ℚ) (idx : ℕ) (rest : List ℕ) (st : MergeState),
      should_close_path (st.segments.getD idx []) d c = true →
      close_pass d c (idx :: rest) st =
        ((st.segments.getD idx [] ++ [pt0 (st.segments.getD idx [])]) ::
            (close_pass d c rest
              ⟨st.segments.set idx
                  (st.segments.getD idx [] ++ [pt0 (st.segments.getD idx [])]),
                st.active, remove_path st.pindex idx⟩).1,
          (close_pass d c rest
            ⟨st.segments.set idx
                (st.segments.getD idx [] ++ [pt0 (st.segments.getD idx [])]),
              st.active, remove_path st.pindex idx⟩).2.1,
          idx :: (close_pass d c rest
            ⟨st.segments.set idx
                (st.segments.getD idx [] ++ [pt0 (st.segments.getD idx [])]),
              st.active, remove_path st.pindex idx⟩).2.2) ∧
        st.segments.getD idx [] ++ [pt0 (st.segments.getD idx [])] ≠
          st.segments.getD idx []) := by
  constructor
  · intro st path idx as d c m j st' h
    obtain ⟨-, -, -, hset, hjlen, hlen⟩ := try_merge_at_endpoint_some h
    have hmlen : path.length < m.length := by omega
    refine ⟨hset, hmlen, fun hidx hslot => ?_⟩
    constructor
    · rw [hset, List.getD_eq_getElem?_getD, List.getElem?_set_self hidx]
      rfl
    · intro hEq
      rw [hEq] at hmlen
      omega
  · intro d c idx rest st h
    constructor
    · rw [close_pass, if_pos h]
    · intro hEq
      have := congrArg List.length hEq
      simp at this

/-- Witness for Claim C10: the committed merge of the two dashes
overwrites slot 0 with the strictly longer spliced polyline. -/
theorem C10_slots_overwritten_witness :
    (⟨(initState dashPair).segments.set 0 [(0, 0), (10, 10), (20, 20)],
        (initState dashPair).active.erase 1,
        insert_path (remove_path (remove_path (initState dashPair).pindex 0) 1)
          [(0, 0), (10, 10), (20, 20)] 0⟩ : MergeState).segments
        = (initState dashPair).segments.set 0 [(0, 0), (10, 10), (20, 20)] ∧
      ([(0, 0), (10, 10)] : List Pt).length < ([(0, 0), (10, 10), (20, 20)] : List Pt).length ∧
      (0 < (initState dashPair).segments.length →
        (initState dashPair).segments.getD 0 [] = [(0, 0), (10, 10)] →
        (⟨(initState dashPair).segments.set 0 [(0, 0), (10, 10), (20, 20)],
            (initState dashPair).active.erase 1,
            insert_path (remove_path (remove_path (initState dashPair).pindex 0) 1)
              [(0, 0), (10, 10), (20, 20)] 0⟩ : MergeState).segments.getD 0 []
            = [(0, 0), (10, 10), (20, 20)] ∧
          ([(0, 0), (10, 10), (20, 20)] : List Pt) ≠ [(0, 0), (10, 10)]) :=
  C10_slots_overwritten.1 (initState dashPair) [(0, 0), (10, 10)] 0 false (1 / 10)
    (99 / 100) [(0, 0), (10, 10), (20, 20)] 1
    ⟨(initState dashPair).segments.set 0 [(0, 0), (10, 10), (20, 20)],
      (initState dashPair).active.erase 1,
      insert_path (remove_path (remove_path (initState dashPair).pindex 0) 1)
        [(0, 0), (10, 10), (20, 20)] 0⟩
    (by with_unfolding_all decide)

/-- Claim C1: after every operation the merge engine performs on the index
(in particular after each committed merge), every active identifier has
exactly two endpoint records observable through the index, at the
polyline's current endpoint coordinates, with no stale record observable.
The code violates this: committing the merge of `[(0,0),(10,10)]` (id 0)
with `[(10,10),(20,20)]` (id 1) calls `remove_path` on both ids (lazy
tombstones: the old entries stay in the sequences) and then
`insert_path(merged, 0)`, which removes id 0 from the excluded set again —
resurrecting its two stale entries.  The survivor's current endpoints are
`(0,0)` and `(20,20)`, yet a radius-1 query at the old endpoint `(10,10)`
observes a record of id 0 at `(10,10)`. -/
theorem C1_stale_record_after_merge :
    (try_merge_at_endpoint
        ⟨dashPair, activeInit dashPair, build_index dashPair⟩
        [(0, 0), (10, 10)] 0 false (1 / 10) (99 / 100)).map
      (fun r => (r.1, r.2.1, r.2.2.pindex.excluded,
        find_endpoints_in_radius r.2.2.pindex (10, 10) 1))
    = some ([(0, 0), (10, 10), (20, 20)], 1, [1],
        [⟨0, false, (10, 10), 0⟩]) := by with_unfolding_all decide

/-- Claim C2: closed polylines are opaque to the merge engine — never
modified, never merged, no endpoint records, returned unchanged.  The
code violates this: `_build_index` excludes closed paths from the index,
but `merge_collinear` puts every path of length ≥ 2 into `active`, so a
closed path still initiates merges from its own endpoints.  The closed
triangle `[(0,0),(10,0),(5,5),(0,0)]` is spliced with the open segment
`[(-1,-1),(-11,-11)]` and does not appear unchanged in the output. -/
theorem C2_closed_path_merged :
    is_closed_path triClosed = true ∧
    merge_collinear [triClosed, triTail] 2 (99 / 100)
      = [[(0, 0), (10, 0), (5, 5), (0, 0), (-1, -1), (-11, -11)]] ∧
    triClosed ∉ merge_collinear [triClosed, triTail] 2 (99 / 100) := by with_unfolding_all decide

/-- Claim C3: splicing polyline A at its start follows the orientation
table — B matched at its start gives `reverse(B) ++ A`, B matched at its
end gives `B ++ A`, seam elided when the meeting points are approximately
equal.  The code inverts the polarity: `try_merge_at_endpoint` passes
`not match.is_start` as the reversal flag for B in the at-start branch,
so for A = `[(10,10),(0,0)]` matched at its start with B =
`[(10,10),(20,20)]` at B's start it produces `B ++ A =
[(10,10),(20,20),(10,10),(0,0)]` (a backtracking path whose seam is not
elided) instead of the table's `reverse(B) ++ A` with the seam elided,
`[(20,20),(10,10),(0,0)]`. -/
theorem C3_start_splice_inverted :
    merge_collinear startStartPair (1 / 10) (99 / 100)
      = [[(10, 10), (20, 20), (10, 10), (0, 0)]] ∧
    merge_collinear startStartPair (1 / 10) (99 / 100)
      ≠ [[(20, 20), (10, 10), (0, 0)]] := by with_unfolding_all decide

/-- Claim C4: the closure pass closes a polyline iff (among other
conditions) the angle between its start tangent and the reverse of its
end tangent is below `a_tol` — the tangents point toward each other.  The
code violates this: `should_close_path` takes the absolute value of the
dot product, folding 180° to 0°.  For `awayPath` the start tangent and
end tangent are both `(1,0)` — the dot product of the start tangent with
the reversed end tangent is negative and the true angle between them is
exactly 180° — yet the code closes the path (the other conditions hold:
4 points, endpoints a half unit apart, not already closed). -/
theorem C4_closes_tangents_pointing_away :
    should_close_path awayPath 1 (49 / 50) = true ∧
    (let ss := psub (pt1 awayPath) (pt0 awayPath)
     let es := psub (ptLast awayPath) (ptPenult awayPath)
     0 < pdot ss es ∧ pdot ss es ^ 2 = normSq ss * normSq es) := by with_unfolding_all decide

/-- Claim C9: the output of `merge_collinear` is a fixed point — a second
run produces the same polylines.  The code violates this: the first run
on `nearRect` merges nothing but closes the rectangle, producing the
closed rectangle plus the untouched dash (2 polylines); in the second run
the closed rectangle is again in `active` (the Claim C2 slip), its new
end tangent now aligns with the dash, and they are spliced into a single
polyline. -/
theorem C9_not_fixed_point :
    (merge_collinear nearRect (11 / 10) (99 / 100)).length = 2 ∧
    (merge_collinear (merge_collinear nearRect (11 / 10) (99 / 100)) (11 / 10) (99 / 100)).length
      = 1 := by with_unfolding_all decide

/-- The identifier just removed is in the excluded set. -/
theorem mem_addExcl_self (i : ℕ) (ex : List ℕ) : i ∈ addExcl i ex := by
  unfold addExcl
  split
  · assumption
  · exact List.mem_cons_self i ex

/-- Claim C6: for every query point and radius the query returns exactly
the endpoint records whose identifier is not excluded and whose Euclidean
distance to Q is at most r, each carrying identifier, start flag,
coordinates and distance, sorted by ascending distance — no in-range
record of a non-excluded identifier is missed by the one-axis window —
and after `remove_path i` no record of identifier `i` appears.  The
hypotheses are the index representation invariants: both entry sequences
are key-sorted, they hold the same records, and the radius (the engine
passes `d_tol ≥ 0`) is nonnegative.  Distances are squared throughout
(`dist ≤ r ↔ dist² ≤ r²` for `r ≥ 0`, and sorting by `dist²` orders like
sorting by `dist`). -/
theorem C6_radius_query (s : PathIndex) (q : Pt) (r : ℚ)
    (hx : s.entries_x.Sorted (fun a b => a.x ≤ b.x))
    (hy : s.entries_y.Sorted (fun a b => a.y ≤ b.y))
    (hperm : List.Perm s.entries_x s.entries_y)
    (hr : 0 ≤ r) :
    (∀ m, m ∈ find_endpoints_in_radius s q r ↔
      ∃ e, e ∈ s.entries_x ∧ e.path_index ∉ s.excluded ∧
        sqDist (e.x, e.y) q ≤ r * r ∧ m = matchOf e q)
    ∧ (find_endpoints_in_radius s q r).Sorted (fun a b => a.dist2 ≤ b.dist2)
    ∧ (∀ i m, m ∈ find_endpoints_in_radius (remove_path s i) q r → m.path_index ≠ i) := by
  have hsq : ∀ e : IndexEntry, sqDist (e.x, e.y) q
      = (e.x - q.1) * (e.x - q.1) + (e.y - q.2) * (e.y - q.2) := by
    intro e
    unfold sqDist normSq pdot psub
    ring
  refine ⟨fun m => ?_, ?_, fun i m hm => ?_⟩
  · refine Iff.trans (mem_find_endpoints_iff s q r hx hy hperm hr m) ?_
    constructor
    · rintro ⟨e, he, hex, hd2, hm⟩
      exact ⟨e, he, hex, by rw [hsq e]; exact hd2, hm⟩
    · rintro ⟨e, he, hex, hd2, hm⟩
      exact ⟨e, he, hex, by rw [← hsq e]; exact hd2, hm⟩
  · exact stableSortBy_sorted _ _
  · obtain ⟨e, -, hex, -, hme⟩ :=
      (mem_find_endpoints_iff (remove_path s i) q r hx hy hperm hr m).mp hm
    rw [hme]
    intro hEq
    exact hex (hEq ▸ mem_addExcl_self i s.excluded)

/-- Witness for Claim C6: the freshly built index over the two dashes
satisfies the representation invariants, and the theorem applies at query
point `(10,10)` with radius 1. -/
theorem C6_radius_query_witness :
    (∀ m, m ∈ find_endpoints_in_radius (build_index dashPair) (10, 10) 1 ↔
      ∃ e, e ∈ (build_index dashPair).entries_x ∧
        e.path_index ∉ (build_index dashPair).excluded ∧
        sqDist (e.x, e.y) (10, 10) ≤ 1 * 1 ∧ m = matchOf e (10, 10))
    ∧ (find_endpoints_in_radius (build_index dashPair) (10, 10) 1).Sorted
        (fun a b => a.dist2 ≤ b.dist2)
    ∧ (∀ i m, m ∈ find_endpoints_in_radius (remove_path (build_index dashPair) i) (10, 10) 1 →
        m.path_index ≠ i) :=
  C6_radius_query (build_index dashPair) (10, 10) 1
    (by with_unfolding_all decide) (by with_unfolding_all decide)
    (by with_unfolding_all decide) (by with_unfolding_all decide)

/-- Claim C7 counterexample: the claim says that when no merge is
possible the engine returns its input unchanged.  For the single
degenerate one-point polyline no merge is possible (the `active` list is
empty, so the loop body never runs), yet the output is empty — the
polyline is dropped, not returned. -/
theorem C7_degenerate_dropped :
    merge_collinear [[((0 : ℚ), (0 : ℚ))]] 1 (99 / 100) = [] ∧
    merge_collinear [[((0 : ℚ), (0 : ℚ))]] 1 (99 / 100) ≠ [[((0 : ℚ), (0 : ℚ))]] := by
  with_unfolding_all decide

/-- Claim C7 (amended): `merge_collinear` never raises — for every finite
input the fueled loops complete with a result (first conjunct); a
candidate whose direction vector at the joining end is degenerate
(squared norm at most `1e-16`, the source's `norm <= 1e-8`) is skipped
while the remaining candidates for the same endpoint are still considered
(second conjunct); an empty query result is an ordinary failure, not an
error (third conjunct); and when the first pass commits no merge and no
active polyline qualifies for closure, the output is the input restricted
to its polylines of length ≥ 2, in order — polylines with fewer than 2
points are dropped, not returned (fourth conjunct). -/
theorem C7_never_raises :
    (∀ (segments : List (List Pt)) (d c : ℚ), ∃ r, mergeCollinearRun segments d c = some r)
    ∧ (∀ (st : MergeState) (path : List Pt) (idx : ℕ) (as : Bool) (d c : ℚ)
        (m : EndpointMatch) (ms : List EndpointMatch),
      ¬(m.path_index = idx ∨ m.path_index ∉ st.active ∨
          (st.segments.getD m.path_index []).length < 2) →
      (normSq (dirAndPoint path as).1 ≤ (1 / 100000000) ^ 2 ∨
        normSq (dirAndPoint (st.segments.getD m.path_index []) m.is_start).1
          ≤ (1 / 100000000) ^ 2) →
      try_merge_go st path idx as d c (m :: ms) = try_merge_go st path idx as d c ms)
    ∧ (∀ (st : MergeState) (path : List Pt) (idx : ℕ) (as : Bool) (d c : ℚ),
      try_merge_go st path idx as d c [] = none)
    ∧ (∀ (segments : List (List Pt)) (d c : ℚ) (st' : MergeState),
      scanGo d c ((activeInit segments).length + 1) (initState segments) 0 0
          = some (st', 0) →
      (∀ i ∈ st'.active, should_close_path (st'.segments.getD i []) d c = false) →
      merge_collinear segments d c = segments.filter (fun s => decide (2 ≤ s.length))) := by
  refine ⟨?_, ?_, fun _ _ _ _ _ _ => rfl, ?_⟩
  · intro segments d c
    unfold mergeCollinearRun
    by_cases hemp : segments.isEmpty
    · rw [if_pos hemp]
      exact ⟨_, rfl⟩
    · rw [if_neg hemp]
      dsimp only
      obtain ⟨st, n, hloop, -, -⟩ := loopGo_spec (d := d) (c := c)
        ((activeInit segments).length + 1) (initState segments) (by simp [initState])
      have hloop' : loopGo d c ((activeInit segments).length + 1)
          ⟨segments, activeInit segments, build_index segments⟩ = some (st, n) := hloop
      rw [hloop']
      exact ⟨_, rfl⟩
  · intro st path idx as d c m ms hguard hdeg
    rw [try_merge_go, if_neg hguard]
    dsimp only
    rw [if_pos hdeg]
  · intro segments d c st' hscan hclose
    have hst : st' = initState segments := (scanGo_some hscan).2.2.2 rfl
    subst hst
    unfold merge_collinear mergeCollinearRun
    by_cases hemp : segments.isEmpty
    · rw [if_pos hemp]
      have : segments = [] := by
        rwa [List.isEmpty_iff] at hemp
      subst this
      rfl
    · rw [if_neg hemp]
      dsimp only
      have hloop := loopGo_of_scan_zero (d := d) (c := c)
        ((initState segments).active.length) hscan
      have hloop' : loopGo d c ((activeInit segments).length + 1)
          ⟨segments, activeInit segments, build_index segments⟩
          = some (initState segments, 0) := hloop
      rw [hloop']
      dsimp only
      rw [close_pass_none hclose]
      dsimp only
      rw [List.foldl_nil, List.nil_append]
      exact activeInit_map_getD segments

/-- Witness for Claim C7: on the too-far pair
`[[(0,0),(10,10)], [(12,12),(20,20)]]` with `d_tol = 1/10` no merge
commits and nothing closes, so the output is the input itself (all
polylines have 2 points). -/
theorem C7_never_raises_witness :
    merge_collinear [[(0, 0), (10, 10)], [(12, 12), (20, 20)]] (1 / 10) (99 / 100)
      = ([[(0, 0), (10, 10)], [(12, 12), (20, 20)]] : List (List Pt)).filter
          (fun s => decide (2 ≤ s.length)) :=
  C7_never_raises.2.2.2 [[(0, 0), (10, 10)], [(12, 12), (20, 20)]] (1 / 10) (99 / 100)
    (initState [[(0, 0), (10, 10)], [(12, 12), (20, 20)]])
    (by with_unfolding_all decide) (by with_unfolding_all decide)

end Vectorize
